import Mathlib

/-!
Shallow embedding of `src/3euro.py`, a two-stage euronews scraper:
a link collector (Selenium-driven pagination loop with heuristic URL
filtering) followed by an article extractor (per-URL fetch and cascading
selector fallbacks for title / author / publication date / content).
Strings are Lean `String`s; the BeautifulSoup document is a small tree
type `Node`; the network is an environment function supplied to the loop.
-/

namespace Euro

/-! ### String helpers mirroring the Python primitives -/

/-- Python `s.startswith(p)`. -/
def strStartsWith (s p : String) : Bool := p.toList.isPrefixOf s.toList

/-- Membership of a pattern as a contiguous substring, Python `p in s`
(for nonempty `p`). -/
def infixB (pat : List Char) : List Char → Bool
  | [] => pat.isEmpty
  | c :: rest => pat.isPrefixOf (c :: rest) || infixB pat rest

/-- Python `p in s` on strings. -/
def strContainsB (s p : String) : Bool := infixB p.toList s.toList

def isDigitB (c : Char) : Bool := decide ('0' ≤ c) && decide (c ≤ '9')

/-- Does the regex `/\d{4}/\d{2}/\d{2}/` match starting at the head of the
character list? -/
def dateAt : List Char → Bool
  | s0 :: a :: b :: c :: d :: s1 :: e :: f :: s2 :: g :: h :: s3 :: _ =>
      s0 == '/' && s1 == '/' && s2 == '/' && s3 == '/' &&
      isDigitB a && isDigitB b && isDigitB c && isDigitB d &&
      isDigitB e && isDigitB f && isDigitB g && isDigitB h
  | _ => false

/-- Python `re.search(r'/\d{4}/\d{2}/\d{2}/', u)`: the date pattern matches
somewhere in the character list. -/
def hasDatePattern : List Char → Bool
  | [] => false
  | c :: rest => dateAt (c :: rest) || hasDatePattern rest

/-! ### Link collector (`3euro.py` lines 27-104) -/

def base_url : String := "https://www.euronews.com/"

/-- Scheme and host of `base_url`, with no trailing slash. -/
def baseSchemeHost : String := "https://www.euronews.com"

/-- `requests.compat.urljoin(base_url, href)` for an `href` that starts with
a slash: a protocol-relative `//host/path` href keeps only the scheme from
the base, while a single-slash href is resolved against the base host. -/
def urljoin (href : String) : String :=
  if strStartsWith href "//" then "https:" ++ href else baseSchemeHost ++ href

def excluded_patterns : List String :=
  ["/tag/", "/my-europe/", "/video/", "/culture/", "/green/", "/programs/",
   "/live", "/widgets", "/business/markets"]

/-- The filter applied to a resolved URL (`3euro.py` line 74): no excluded
substring, and the date-path regex matches. -/
def urlQualifies (u : String) : Bool :=
  !(excluded_patterns.any (fun p => strContainsB u p)) && hasDatePattern u.toList

/-- Python set insertion, modelled as a duplicate-free list. -/
def addLink (links : List String) (u : String) : List String :=
  if links.contains u then links else links ++ [u]

/-- One `<a href>` inside a container (`3euro.py` lines 63-76): the state is
the accumulated link set together with the page's `page_links_found` counter.
Note the counter increments on every qualifying link, whether or not the set
insertion was new. -/
def processHref (st : List String × Nat) (href : String) : List String × Nat :=
  if strStartsWith href "/" && decide (1 < href.length) then
    if urlQualifies (urljoin href) then (addLink st.1 (urljoin href), st.2 + 1) else st
  else st

/-- A listing page, reduced to its article containers, each reduced to the
`href` values of its anchor elements. -/
abbrev Page := List (List String)

def processPage (links : List String) (page : Page) : List String × Nat :=
  page.foldl (fun st container => container.foldl processHref st) (links, 0)

/-- Outcome of loading one listing page in the browser, as distinguished by
the `except` arms of the page loop (`3euro.py` lines 90-101). -/
inductive PageResult where
  | ok (containers : Page)
  | timeout
  | noSuchElement
  | webDriverErr
  | otherErr

/-- Record of one successfully processed page: index, link set before,
`page_links_found`, link set after. -/
structure PageTrace where
  idx : Nat
  linksBefore : List String
  found : Nat
  linksAfter : List String
deriving DecidableEq

def max_pages_to_scrape : Nat := 5

/-- The pagination loop (`3euro.py` lines 35-101). Returns the link set, the
list of page indices that were fetched, and the trace of processed pages. -/
def collectGo (env : Nat → PageResult) :
    Nat → Nat → List String → List Nat → List PageTrace →
    List String × List Nat × List PageTrace
  | 0, _, links, fetched, trace => (links, fetched, trace)
  | fuel + 1, pageNum, links, fetched, trace =>
    let fetched2 := fetched ++ [pageNum]
    match env pageNum with
    | PageResult.ok containers =>
      if containers.isEmpty then
        (links, fetched2, trace)
      else
        let res := processPage links containers
        let trace2 := trace ++ [⟨pageNum, links, res.2, res.1⟩]
        if res.2 == 0 && decide (0 < pageNum) then (res.1, fetched2, trace2)
        else collectGo env fuel (pageNum + 1) res.1 fetched2 trace2
    | PageResult.timeout => collectGo env fuel (pageNum + 1) links fetched2 trace
    | PageResult.noSuchElement => collectGo env fuel (pageNum + 1) links fetched2 trace
    | PageResult.webDriverErr => (links, fetched2, trace)
    | PageResult.otherErr => collectGo env fuel (pageNum + 1) links fetched2 trace

def collect (env : Nat → PageResult) : List String × List Nat × List PageTrace :=
  collectGo env max_pages_to_scrape 0 [] [] []

/-! ### HTML document model (BeautifulSoup fragment used by the extractor) -/

/-- A parsed HTML node: an element with tag name, class list, attribute list
and children, or a text node. A whole document is an element whose tag is
irrelevant and whose children are the top-level nodes. -/
inductive Node where
  | elem (tag : String) (classes : List String) (attrs : List (String × String)) (children : List Node)
  | text (s : String)

/-- All element nodes of a forest in document (preorder) order, each carrying
its whole subtree. -/
def elemsList : List Node → List Node
  | [] => []
  | Node.text _ :: rest => elemsList rest
  | Node.elem t c a ch :: rest => Node.elem t c a ch :: (elemsList ch ++ elemsList rest)

/-- The descendant elements of a node (excluding the node itself), as
BeautifulSoup `find` / `find_all` search them. -/
def Node.descElems : Node → List Node
  | Node.text _ => []
  | Node.elem _ _ _ ch => elemsList ch

/-- `tag.find_all(pred)`. -/
def findAllN (n : Node) (p : Node → Bool) : List Node := n.descElems.filter p

/-- `tag.find(pred)`: first descendant element matching, in document order. -/
def findN (n : Node) (p : Node → Bool) : Option Node := (findAllN n p).head?

/-- The raw strings of a forest in document order. -/
def textList : List Node → List String
  | [] => []
  | Node.text s :: rest => s :: textList rest
  | Node.elem _ _ _ ch :: rest => textList ch ++ textList rest

/-- Drop leading whitespace characters. -/
def dropLeadWs : List Char → List Char
  | [] => []
  | c :: rest => if c.isWhitespace then dropLeadWs rest else c :: rest

/-- Python `s.strip()`: whitespace removed from both ends. -/
def strTrim (s : String) : String :=
  String.mk (dropLeadWs (dropLeadWs s.data.reverse).reverse)

/-- `tag.get_text(strip=True)`: every descendant string stripped, empty
pieces dropped, concatenated. -/
def getTextStrip (n : Node) : String :=
  String.join (((textList [n]).map strTrim).filter (fun s => !s.data.isEmpty))

def tagIs (t : String) (n : Node) : Bool :=
  match n with
  | Node.elem tg _ _ _ => tg == t
  | Node.text _ => false

def hasClassB (c : String) (n : Node) : Bool :=
  match n with
  | Node.elem _ cs _ _ => cs.contains c
  | Node.text _ => false

def attrVal (n : Node) (k : String) : Option String :=
  match n with
  | Node.elem _ _ attrs _ => attrs.lookup k
  | Node.text _ => none

/-- `soup.select('div.c-article-content > p')`: every `p` element whose
parent is a `div` with class `c-article-content`, in document order. The
flag says whether the current forest's parent is such a div. -/
def selectCAC (parentIsCAC : Bool) : List Node → List Node
  | [] => []
  | Node.text _ :: rest => selectCAC parentIsCAC rest
  | Node.elem t cs a ch :: rest =>
    (if parentIsCAC && t == "p" then [Node.elem t cs a ch] else []) ++
    selectCAC (t == "div" && cs.contains "c-article-content") ch ++
    selectCAC parentIsCAC rest

def Node.childrenOf : Node → List Node
  | Node.elem _ _ _ ch => ch
  | Node.text _ => []

def selectArticleContentPs (doc : Node) : List Node :=
  selectCAC false doc.childrenOf

/-! ### Per-field extraction (`3euro.py` lines 122-200) -/

/-- Matcher for `find(class_='c-article-byline__name')` (any tag). -/
def isBylineName (n : Node) : Bool := hasClassB "c-article-byline__name" n

/-- Matcher for `find('meta', \x7b'name': 'author'\x7d)`. -/
def isMetaAuthor (n : Node) : Bool :=
  tagIs "meta" n && (attrVal n "name" == some "author")

/-- Matcher for `find('div', class_='c-article-byline')`. -/
def isBylineDiv (n : Node) : Bool := tagIs "div" n && hasClassB "c-article-byline" n

/-- Matcher for `byline_div.find('span', class_='c-article-byline__name')`. -/
def isBylineNameSpan (n : Node) : Bool := tagIs "span" n && isBylineName n

/-- Matcher for `byline_div.find('a', class_='u-hover-underline')`. -/
def isHoverUnderlineA (n : Node) : Bool :=
  tagIs "a" n && hasClassB "u-hover-underline" n

/-- Title extraction (`3euro.py` lines 123-124). -/
def extractTitle (doc : Node) : String :=
  match findN doc (tagIs "h1") with
  | some t => getTextStrip t
  | none => "N/A"

/-- The byline-div leg of the author cascade (`3euro.py` lines 140-149). -/
def bylineAuthor (doc : Node) : String :=
  match findN doc isBylineDiv with
  | none => "N/A"
  | some byline_div =>
    match findN byline_div isBylineNameSpan with
    | some s => getTextStrip s
    | none =>
      match findN byline_div isHoverUnderlineA with
      | some a => getTextStrip a
      | none => "N/A"

/-- The four-step author cascade (`3euro.py` lines 129-150). -/
def extractAuthor (doc : Node) : String :=
  match findN doc isBylineName with
  | some t => getTextStrip t
  | none =>
    match findN doc isMetaAuthor with
    | some m =>
      match attrVal m "content" with
      | some v => v
      | none => bylineAuthor doc
    | none => bylineAuthor doc

def isMetaPublishedTime (n : Node) : Bool :=
  tagIs "meta" n && (attrVal n "property" == some "article:published_time")

def isMetaPubdate (n : Node) : Bool :=
  tagIs "meta" n && (attrVal n "name" == some "pubdate")

def isBylineDateSpan (n : Node) : Bool :=
  tagIs "span" n && hasClassB "c-article-byline__date" n

/-- The date-span fallback (`3euro.py` lines 169-171). -/
def dateSpanFallback (doc : Node) : String :=
  match findN doc isBylineDateSpan with
  | some s => getTextStrip s
  | none => "N/A"

/-- The meta-tag leg of the date cascade (`3euro.py` lines 163-171); the
Python `or` takes the first find result when it is not `None`. -/
def dateMetaFallback (doc : Node) : String :=
  match (findN doc isMetaPublishedTime).orElse (fun _ => findN doc isMetaPubdate) with
  | some m =>
    match attrVal m "content" with
    | some v => v
    | none => dateSpanFallback doc
  | none => dateSpanFallback doc

/-- Publication-date cascade (`3euro.py` lines 157-171). A `time` element
without a `datetime` attribute falls through to the meta tags, matching
the Python `if date_tag and 'datetime' in date_tag.attrs` guard. -/
def extractDate (doc : Node) : String :=
  match findN doc (tagIs "time") with
  | some t =>
    match attrVal t "datetime" with
    | some v => v
    | none => dateMetaFallback doc
  | none => dateMetaFallback doc

def isArticleBodyDiv (n : Node) : Bool :=
  tagIs "div" n && hasClassB "c-article__body" n

/-- `"\n".join(p.get_text(strip=True) for p in ps)`. -/
def joinParas (ps : List Node) : String :=
  String.intercalate "\n" (ps.map getTextStrip)

/-- Content cascade (`3euro.py` lines 178-196). A matched container with no
paragraphs leaves the sentinel, exactly as the nested Python conditionals do. -/
def extractContent (doc : Node) : String :=
  if !(selectArticleContentPs doc).isEmpty then joinParas (selectArticleContentPs doc)
  else
    match findN doc isArticleBodyDiv with
    | some body =>
      if !(findAllN body (tagIs "p")).isEmpty then joinParas (findAllN body (tagIs "p"))
      else "N/A"
    | none =>
      match findN doc (tagIs "article") with
      | some art =>
        if !(findAllN art (tagIs "p")).isEmpty then joinParas (findAllN art (tagIs "p"))
        else "N/A"
      | none => "N/A"

/-! ### Article loop (`3euro.py` lines 107-231) -/

structure ArticleRecord where
  url : String
  title : String
  author : String
  publication_date : String
  content : String
deriving DecidableEq

/-- The record built and appended on a successful fetch
(`3euro.py` lines 203-209). -/
def extractRecord (url : String) (doc : Node) : ArticleRecord :=
  { url := url
    title := extractTitle doc
    author := extractAuthor doc
    publication_date := extractDate doc
    content := extractContent doc }

/-- Outcome of `requests.get` + parsing for one article URL, distinguishing
the `except` arms of the article loop. `ok` carries the HTTP status code;
`raise_for_status` turns a status `≥ 400` into an exception handled by the
`RequestException` arm. -/
inductive FetchOutcome where
  | ok (status : Nat) (doc : Node)
  | timeout
  | requestErr
  | attrErr
  | typeErr
  | otherErr

/-- Does this outcome take one of the `except ... continue` arms? -/
def fetchFails : FetchOutcome → Bool
  | FetchOutcome.ok s _ => decide (400 ≤ s)
  | _ => true

/-- Observable side effects of the article loop that the spec talks about. -/
inductive Effect where
  | fetchArticle (url : String)
  | sleepArticle
deriving DecidableEq

/-- The article loop: for each link, fetch; on success append a record and
sleep `article_request_delay`; on any exception `continue` with the next
link (the sleep at line 214 sits inside the `try`, so it is skipped).
Returns the record list and the effect trace. -/
def runExtractor (fetch : String → FetchOutcome) : List String → List ArticleRecord × List Effect
  | [] => ([], [])
  | link :: rest =>
    match fetch link with
    | FetchOutcome.ok s doc =>
      if s < 400 then
        (extractRecord link doc :: (runExtractor fetch rest).1,
         Effect.fetchArticle link :: Effect.sleepArticle :: (runExtractor fetch rest).2)
      else ((runExtractor fetch rest).1,
            Effect.fetchArticle link :: (runExtractor fetch rest).2)
    | _ => ((runExtractor fetch rest).1,
            Effect.fetchArticle link :: (runExtractor fetch rest).2)

/-! ### Collector lemmas -/

/-- Every link the filter ever inserts: it passed `urlQualifies` and is the
base-join of some slash-prefixed href. -/
def GoodLink (u : String) : Prop :=
  urlQualifies u = true ∧
  ∃ h0, strStartsWith h0 "/" = true ∧ u = urljoin h0

theorem mem_addLink {l : List String} {v u : String} (h : u ∈ addLink l v) :
    u ∈ l ∨ u = v := by
  unfold addLink at h
  split at h
  · exact Or.inl h
  · rcases List.mem_append.1 h with h1 | h1
    · exact Or.inl h1
    · exact Or.inr (List.mem_singleton.1 h1)

theorem mem_processHref {st : List String × Nat} {href u : String}
    (h : u ∈ (processHref st href).1) : u ∈ st.1 ∨ GoodLink u := by
  unfold processHref at h
  split at h
  · rename_i hcond
    split at h
    · rename_i hqual
      rcases mem_addLink h with h1 | h1
      · exact Or.inl h1
      · refine Or.inr ⟨h1 ▸ hqual, href, ?_, h1⟩
        simp only [Bool.and_eq_true] at hcond
        exact hcond.1
    · exact Or.inl h
  · exact Or.inl h

theorem mem_foldl_processHref {container : List String} :
    ∀ {st : List String × Nat} {u : String},
      u ∈ (container.foldl processHref st).1 → u ∈ st.1 ∨ GoodLink u := by
  induction container with
  | nil => intro st u h; exact Or.inl h
  | cons hd tl ih =>
    intro st u h
    rcases ih h with h1 | h1
    · exact mem_processHref h1
    · exact Or.inr h1

theorem mem_foldl_containers {page : Page} :
    ∀ {st : List String × Nat} {u : String},
      u ∈ (page.foldl (fun st container => container.foldl processHref st) st).1 →
        u ∈ st.1 ∨ GoodLink u := by
  induction page with
  | nil => intro st u h; exact Or.inl h
  | cons hd tl ih =>
    intro st u h
    simp only [List.foldl_cons] at h
    rcases ih h with h1 | h1
    · exact mem_foldl_processHref h1
    · exact Or.inr h1

theorem mem_processPage {page : Page} {links : List String} {u : String}
    (h : u ∈ (processPage links page).1) : u ∈ links ∨ GoodLink u :=
  mem_foldl_containers h

theorem mem_collectGo {env : Nat → PageResult} {fuel : Nat} :
    ∀ {pageNum : Nat} {links : List String} {fetched : List Nat}
      {trace : List PageTrace} {u : String},
      u ∈ (collectGo env fuel pageNum links fetched trace).1 →
        u ∈ links ∨ GoodLink u := by
  induction fuel with
  | zero => intro pageNum links fetched trace u h; exact Or.inl h
  | succ n ih =>
    intro pageNum links fetched trace u h
    unfold collectGo at h
    cases henv : env pageNum <;> rw [henv] at h <;> dsimp only at h
    case ok containers =>
      by_cases hempty : containers.isEmpty = true
      · rw [if_pos hempty] at h
        exact Or.inl h
      · rw [if_neg hempty] at h
        split at h
        · rcases mem_processPage h with h1 | h1
          · exact Or.inl h1
          · exact Or.inr h1
        · rcases ih h with h1 | h1
          · rcases mem_processPage h1 with h2 | h2
            · exact Or.inl h2
            · exact Or.inr h2
          · exact Or.inr h1
    case timeout => exact ih h
    case noSuchElement => exact ih h
    case webDriverErr => exact Or.inl h
    case otherErr => exact ih h

theorem mem_collect {env : Nat → PageResult} {u : String}
    (h : u ∈ (collect env).1) : GoodLink u := by
  rcases mem_collectGo h with h1 | h1
  · simp at h1
  · exact h1

/-! ### String-prefix facts about `urljoin` -/

theorem strStartsWith_append_of {s p : String} (t : String)
    (hp : strStartsWith s p = true) : strStartsWith (s ++ t) p = true := by
  unfold strStartsWith at hp ⊢
  rw [List.isPrefixOf_iff_prefix] at hp ⊢
  have : (s ++ t).toList = s.toList ++ t.toList := String.data_append s t
  rw [this]
  exact hp.trans (List.prefix_append _ _)

theorem urljoin_startsWith_https (h0 : String) :
    strStartsWith (urljoin h0) "https:" = true := by
  unfold urljoin
  split
  · exact strStartsWith_append_of h0 (by decide)
  · exact strStartsWith_append_of h0 (by decide)

theorem urljoin_startsWith_base {h0 : String}
    (hpp : strStartsWith h0 "//" = false) :
    strStartsWith (urljoin h0) baseSchemeHost = true := by
  unfold urljoin
  rw [hpp]
  simp only [Bool.false_eq_true, if_false]
  exact strStartsWith_append_of h0 (by decide)

theorem urlQualifies_date {u : String} (h : urlQualifies u = true) :
    hasDatePattern u.toList = true := by
  unfold urlQualifies at h
  simp only [Bool.and_eq_true] at h
  exact h.2

theorem urlQualifies_excluded {u : String} (h : urlQualifies u = true) :
    ∀ p ∈ excluded_patterns, strContainsB u p = false := by
  unfold urlQualifies at h
  simp only [Bool.and_eq_true, Bool.not_eq_true', List.any_eq_false] at h
  intro p hp
  exact Bool.eq_false_iff.mpr (h.1 p hp)

theorem fetched_bound_step {fetched : List Nat} {pageNum : Nat}
    (hf : ∀ j ∈ fetched, j < pageNum) :
    ∀ j ∈ fetched ++ [pageNum], j < pageNum + 1 := by
  intro j hj
  rcases List.mem_append.1 hj with h | h
  · exact Nat.lt_succ_of_lt (hf j h)
  · rw [List.mem_singleton.1 h]
    exact Nat.lt_succ_self _

/-- A trace entry recorded with `page_links_found = 0` on a page of positive
index is the moment the loop breaks, so every fetched page index is bounded
by it. The two invariants say the entries so far never triggered the break
and all fetched indices are below the current page. -/
theorem collectGo_stop {env : Nat → PageResult} {fuel : Nat} :
    ∀ {pageNum : Nat} {links : List String} {fetched : List Nat}
      {trace : List PageTrace},
      (∀ j ∈ fetched, j < pageNum) →
      (∀ e ∈ trace, e.found = 0 → e.idx = 0) →
      ∀ e ∈ (collectGo env fuel pageNum links fetched trace).2.2,
        0 < e.idx → e.found = 0 →
        ∀ j ∈ (collectGo env fuel pageNum links fetched trace).2.1, j ≤ e.idx := by
  induction fuel with
  | zero =>
    intro pageNum links fetched trace hf ht e he hpos hfound j hj
    unfold collectGo at he
    have := ht e he hfound
    omega
  | succ n ih =>
    intro pageNum links fetched trace hf ht
    unfold collectGo
    cases henv : env pageNum <;> dsimp only
    case ok containers =>
      by_cases hempty : containers.isEmpty = true
      · rw [if_pos hempty]
        intro e he hpos hfound j hj
        have := ht e he hfound
        omega
      · rw [if_neg hempty]
        split
        · rename_i hstop
          intro e he hpos hfound j hj
          rcases List.mem_append.1 he with h1 | h1
          · have := ht e h1 hfound
            omega
          · have he2 := List.mem_singleton.1 h1
            rcases List.mem_append.1 hj with h2 | h2
            · have := hf j h2
              rw [he2]
              show j ≤ pageNum
              omega
            · rw [List.mem_singleton.1 h2, he2]
        · rename_i hstop
          apply ih (fetched_bound_step hf)
          intro e he hfound
          rcases List.mem_append.1 he with h1 | h1
          · exact ht e h1 hfound
          · rw [List.mem_singleton.1 h1]
            rw [List.mem_singleton.1 h1] at hfound
            by_contra hne
            apply hstop
            have hz : (processPage links containers).2 = 0 := hfound
            simp [hz, Nat.pos_of_ne_zero hne]
    case timeout => exact ih (fetched_bound_step hf) ht
    case noSuchElement => exact ih (fetched_bound_step hf) ht
    case webDriverErr =>
      intro e he hpos hfound j hj
      have := ht e he hfound
      omega
    case otherErr => exact ih (fetched_bound_step hf) ht

/-! ### C1 -/

/-- Claim C1 (amended): every collected link matches the date-path regex, contains
no excluded-pattern substring, and begins with the `https:` scheme; it begins
with the base scheme+host whenever its source href is not protocol-relative
(an href starting with `//` resolves onto a different host). -/
theorem c1_collected_link_filter (env : Nat → PageResult) (u : String)
    (hu : u ∈ (collect env).1) :
    hasDatePattern u.toList = true ∧
    (∀ p ∈ excluded_patterns, strContainsB u p = false) ∧
    strStartsWith u "https:" = true ∧
    ∃ h0, strStartsWith h0 "/" = true ∧ u = urljoin h0 ∧
      (strStartsWith h0 "//" = false → strStartsWith u baseSchemeHost = true) := by
  obtain ⟨hq, h0, hs, hu0⟩ := mem_collect hu
  refine ⟨urlQualifies_date hq, urlQualifies_excluded hq, ?_, h0, hs, hu0, ?_⟩
  · rw [hu0]
    exact urljoin_startsWith_https h0
  · intro hpp
    rw [hu0]
    exact urljoin_startsWith_base hpp

def c1ExEnv : Nat → PageResult := fun n =>
  if n = 0 then PageResult.ok [["/2024/05/06/story"]] else PageResult.ok []

/-- Claim C1 witness: the single collected link of a concrete one-page run
satisfies the amended conditions. -/
theorem c1_witness :
    "https://www.euronews.com/2024/05/06/story" ∈ (collect c1ExEnv).1 ∧
    (hasDatePattern ("https://www.euronews.com/2024/05/06/story").toList = true ∧
     (∀ p ∈ excluded_patterns,
        strContainsB "https://www.euronews.com/2024/05/06/story" p = false) ∧
     strStartsWith "https://www.euronews.com/2024/05/06/story" "https:" = true ∧
     ∃ h0, strStartsWith h0 "/" = true ∧
       "https://www.euronews.com/2024/05/06/story" = urljoin h0 ∧
       (strStartsWith h0 "//" = false →
         strStartsWith "https://www.euronews.com/2024/05/06/story" baseSchemeHost = true)) :=
  ⟨by decide, c1_collected_link_filter c1ExEnv _ (by decide)⟩

/-- Claim C1 exactly as stated: every collected link starts with the base
scheme+host, matches the date pattern and avoids the exclusion list. -/
def C1Claim (env : Nat → PageResult) : Prop :=
  ∀ u ∈ (collect env).1,
    strStartsWith u baseSchemeHost = true ∧
    hasDatePattern u.toList = true ∧
    ∀ p ∈ excluded_patterns, strContainsB u p = false

def c1EvilEnv : Nat → PageResult := fun n =>
  if n = 0 then PageResult.ok [["//evil.example/2024/01/02/story"]]
  else PageResult.ok []

/-- Claim C1 counterexample: the protocol-relative href `//evil.example/...`
passes the `startswith('/')` check, and `urljoin` resolves it onto a foreign
host, so the collected link does not start with the base scheme+host. -/
theorem c1_counterexample : ¬ C1Claim c1EvilEnv := by
  intro h
  have h2 := (h "https://evil.example/2024/01/02/story" (by decide)).1
  exact absurd h2 (by decide)

/-! ### C2 -/

/-- Claim C2 (amended): if a later page is processed with `page_links_found = 0`
— zero qualifying link occurrences, counting links already in the set —
collection stops and no page with a higher index is fetched. -/
theorem c2_zero_found_stops (env : Nat → PageResult) (e : PageTrace)
    (he : e ∈ (collect env).2.2) (hpos : 0 < e.idx) (hfound : e.found = 0) :
    ∀ j ∈ (collect env).2.1, j ≤ e.idx :=
  collectGo_stop (by simp) (by simp) e he hpos hfound

def c2ExEnv : Nat → PageResult := fun n =>
  if n = 0 then PageResult.ok [["/2024/05/06/story"]]
  else if n = 1 then PageResult.ok [["/nope"]]
  else PageResult.ok [["/2030/01/02/more"]]

/-- Claim C2 witness: in a run whose second page has only a non-qualifying href,
page 2 is never fetched. -/
theorem c2_witness : (2 : Nat) ∉ (collect c2ExEnv).2.1 := by
  intro h2
  have h3 := c2_zero_found_stops c2ExEnv
    ⟨1, ["https://www.euronews.com/2024/05/06/story"], 0,
       ["https://www.euronews.com/2024/05/06/story"]⟩
    (by decide) (by decide) rfl 2 h2
  exact absurd h3 (by decide)

/-- Claim C2 exactly as stated: a later page that adds no new links to the set
stops collection. -/
def C2Claim (env : Nat → PageResult) : Prop :=
  ∀ e ∈ (collect env).2.2, 0 < e.idx → e.linksAfter = e.linksBefore →
    ∀ j ∈ (collect env).2.1, j ≤ e.idx

def c2DupEnv : Nat → PageResult := fun n =>
  if n = 0 then PageResult.ok [["/2024/05/06/story"]]
  else if n = 1 then PageResult.ok [["/2024/05/06/story"]]
  else PageResult.ok [["/2030/01/02/more"]]

/-- Claim C2 counterexample: page 1 repeats the already-collected link, so the
set gains nothing, yet `page_links_found` is 1 (it counts qualifying links
whether or not the set insertion was new) and page 2 is still fetched. -/
theorem c2_counterexample : ¬ C2Claim c2DupEnv := by
  intro h
  have h2 := h
    ⟨1, ["https://www.euronews.com/2024/05/06/story"], 1,
       ["https://www.euronews.com/2024/05/06/story"]⟩
    (by decide) (by decide) rfl 2 (by decide)
  exact absurd h2 (by decide)

/-! ### C3 -/

/-- Claim C3: when page 0 has zero article containers, the collector returns an
empty link set and only page 0 was ever fetched. -/
theorem c3_empty_first_page (env : Nat → PageResult)
    (h : env 0 = PageResult.ok []) :
    (collect env).1 = [] ∧ (collect env).2.1 = [0] := by
  unfold collect max_pages_to_scrape
  unfold collectGo
  rw [h]
  simp

def c3ExEnv : Nat → PageResult := fun _ => PageResult.ok []

/-- Claim C3 witness: a concrete empty first page. -/
theorem c3_witness : (collect c3ExEnv).1 = [] ∧ (collect c3ExEnv).2.1 = [0] :=
  c3_empty_first_page c3ExEnv rfl

/-! ### Option-valued views of the four field cascades

Each extraction function equals its cascade's optional result defaulted to
the sentinel `"N/A"`, which is how the spec phrases the field contract. -/

def titleOpt (doc : Node) : Option String :=
  (findN doc (tagIs "h1")).map getTextStrip

def bylineOpt (doc : Node) : Option String :=
  match findN doc isBylineDiv with
  | none => none
  | some byline_div =>
    match findN byline_div isBylineNameSpan with
    | some s => some (getTextStrip s)
    | none =>
      match findN byline_div isHoverUnderlineA with
      | some a => some (getTextStrip a)
      | none => none

def authorOpt (doc : Node) : Option String :=
  match findN doc isBylineName with
  | some t => some (getTextStrip t)
  | none =>
    match findN doc isMetaAuthor with
    | some m =>
      match attrVal m "content" with
      | some v => some v
      | none => bylineOpt doc
    | none => bylineOpt doc

def dateSpanOpt (doc : Node) : Option String :=
  (findN doc isBylineDateSpan).map getTextStrip

def dateMetaOpt (doc : Node) : Option String :=
  match (findN doc isMetaPublishedTime).orElse (fun _ => findN doc isMetaPubdate) with
  | some m =>
    match attrVal m "content" with
    | some v => some v
    | none => dateSpanOpt doc
  | none => dateSpanOpt doc

def dateOpt (doc : Node) : Option String :=
  match findN doc (tagIs "time") with
  | some t =>
    match attrVal t "datetime" with
    | some v => some v
    | none => dateMetaOpt doc
  | none => dateMetaOpt doc

def contentOpt (doc : Node) : Option String :=
  if !(selectArticleContentPs doc).isEmpty then
    some (joinParas (selectArticleContentPs doc))
  else
    match findN doc isArticleBodyDiv with
    | some body =>
      if !(findAllN body (tagIs "p")).isEmpty then
        some (joinParas (findAllN body (tagIs "p")))
      else none
    | none =>
      match findN doc (tagIs "article") with
      | some art =>
        if !(findAllN art (tagIs "p")).isEmpty then
          some (joinParas (findAllN art (tagIs "p")))
        else none
      | none => none

theorem extractTitle_eq_opt (doc : Node) :
    extractTitle doc = (titleOpt doc).getD "N/A" := by
  unfold extractTitle titleOpt
  cases findN doc (tagIs "h1") <;> rfl

theorem bylineAuthor_eq_opt (doc : Node) :
    bylineAuthor doc = (bylineOpt doc).getD "N/A" := by
  unfold bylineAuthor bylineOpt
  cases findN doc isBylineDiv with
  | none => rfl
  | some d =>
    dsimp only
    cases findN d isBylineNameSpan with
    | some s => rfl
    | none =>
      dsimp only
      cases findN d isHoverUnderlineA <;> rfl

theorem extractAuthor_eq_opt (doc : Node) :
    extractAuthor doc = (authorOpt doc).getD "N/A" := by
  unfold extractAuthor authorOpt
  cases findN doc isBylineName with
  | some t => rfl
  | none =>
    dsimp only
    cases findN doc isMetaAuthor with
    | some m =>
      dsimp only
      cases attrVal m "content" with
      | some v => rfl
      | none => exact bylineAuthor_eq_opt doc
    | none => exact bylineAuthor_eq_opt doc

theorem dateSpanFallback_eq_opt (doc : Node) :
    dateSpanFallback doc = (dateSpanOpt doc).getD "N/A" := by
  unfold dateSpanFallback dateSpanOpt
  cases findN doc isBylineDateSpan <;> rfl

theorem dateMetaFallback_eq_opt (doc : Node) :
    dateMetaFallback doc = (dateMetaOpt doc).getD "N/A" := by
  unfold dateMetaFallback dateMetaOpt
  cases (findN doc isMetaPublishedTime).orElse (fun _ => findN doc isMetaPubdate) with
  | none => exact dateSpanFallback_eq_opt doc
  | some m =>
    dsimp only
    cases attrVal m "content" with
    | some v => rfl
    | none => exact dateSpanFallback_eq_opt doc

theorem extractDate_eq_opt (doc : Node) :
    extractDate doc = (dateOpt doc).getD "N/A" := by
  unfold extractDate dateOpt
  cases findN doc (tagIs "time") with
  | none => exact dateMetaFallback_eq_opt doc
  | some t =>
    dsimp only
    cases attrVal t "datetime" with
    | some v => rfl
    | none => exact dateMetaFallback_eq_opt doc

theorem extractContent_eq_opt (doc : Node) :
    extractContent doc = (contentOpt doc).getD "N/A" := by
  unfold extractContent contentOpt
  by_cases h1 : (!(selectArticleContentPs doc).isEmpty) = true
  · rw [if_pos h1, if_pos h1]
    rfl
  · rw [if_neg h1, if_neg h1]
    cases findN doc isArticleBodyDiv with
    | some body =>
      dsimp only
      by_cases h2 : (!(findAllN body (tagIs "p")).isEmpty) = true
      · rw [if_pos h2, if_pos h2]
        rfl
      · rw [if_neg h2, if_neg h2]
        rfl
    | none =>
      dsimp only
      cases findN doc (tagIs "article") with
      | some art =>
        dsimp only
        by_cases h2 : (!(findAllN art (tagIs "p")).isEmpty) = true
        · rw [if_pos h2, if_pos h2]
          rfl
        · rw [if_neg h2, if_neg h2]
          rfl
      | none => rfl

/-! ### Step lemmas for the article loop -/

theorem runExtractor_cons_ok {fetch : String → FetchOutcome} {link : String}
    {rest : List String} {s : Nat} {doc : Node}
    (h : fetch link = FetchOutcome.ok s doc) (hs : s < 400) :
    runExtractor fetch (link :: rest) =
      (extractRecord link doc :: (runExtractor fetch rest).1,
       Effect.fetchArticle link :: Effect.sleepArticle :: (runExtractor fetch rest).2) := by
  rw [runExtractor.eq_def]
  dsimp only
  rw [h]
  dsimp only
  rw [if_pos hs]

theorem runExtractor_cons_fail {fetch : String → FetchOutcome} {link : String}
    {rest : List String} (h : fetchFails (fetch link) = true) :
    runExtractor fetch (link :: rest) =
      ((runExtractor fetch rest).1,
       Effect.fetchArticle link :: (runExtractor fetch rest).2) := by
  cases hf : fetch link
  case ok s doc =>
    rw [runExtractor.eq_def]
    dsimp only
    rw [hf]
    dsimp only
    rw [hf] at h
    unfold fetchFails at h
    simp only [decide_eq_true_eq] at h
    rw [if_neg (by omega)]
  all_goals
    rw [runExtractor.eq_def]
    dsimp only
    rw [hf]

/-! ### C4 -/

/-- Claim C4: when the fetch of a link succeeds (status below 400), exactly one
record is appended for it, its `url` is the link, and each of the four
extracted fields is the cascade's string when some step matched and exactly
the sentinel `"N/A"` otherwise — never absent, whatever the document is. -/
theorem c4_success_appends_total_record (fetch : String → FetchOutcome)
    (link : String) (rest : List String) (s : Nat) (doc : Node)
    (h : fetch link = FetchOutcome.ok s doc) (hs : s < 400) :
    (runExtractor fetch (link :: rest)).1
      = extractRecord link doc :: (runExtractor fetch rest).1 ∧
    extractRecord link doc =
      { url := link
        title := (titleOpt doc).getD "N/A"
        author := (authorOpt doc).getD "N/A"
        publication_date := (dateOpt doc).getD "N/A"
        content := (contentOpt doc).getD "N/A" } := by
  constructor
  · rw [runExtractor_cons_ok h hs]
  · unfold extractRecord
    rw [extractTitle_eq_opt, extractAuthor_eq_opt, extractDate_eq_opt,
        extractContent_eq_opt]

/-- A document on which every cascade step fails. -/
def emptyDoc : Node := Node.elem "html" [] [] []

def c4Fetch : String → FetchOutcome := fun _ => FetchOutcome.ok 200 emptyDoc

/-- Claim C4 witness: a successful fetch of a document with no matching elements
still appends a record, with every field equal to `"N/A"`. -/
theorem c4_witness :
    (runExtractor c4Fetch ["https://www.euronews.com/2024/05/06/story"]).1
      = extractRecord "https://www.euronews.com/2024/05/06/story" emptyDoc
          :: (runExtractor c4Fetch []).1 ∧
    extractRecord "https://www.euronews.com/2024/05/06/story" emptyDoc =
      { url := "https://www.euronews.com/2024/05/06/story"
        title := (titleOpt emptyDoc).getD "N/A"
        author := (authorOpt emptyDoc).getD "N/A"
        publication_date := (dateOpt emptyDoc).getD "N/A"
        content := (contentOpt emptyDoc).getD "N/A" } :=
  c4_success_appends_total_record c4Fetch
    "https://www.euronews.com/2024/05/06/story" [] 200 emptyDoc rfl (by decide)

/-! ### C5 -/

theorem fetch_ok_of_not_fails {fetch : String → FetchOutcome} {link : String}
    (h : ¬ fetchFails (fetch link) = true) :
    ∃ s doc, fetch link = FetchOutcome.ok s doc ∧ s < 400 := by
  cases he : fetch link
  case ok s doc =>
    rw [he] at h
    unfold fetchFails at h
    simp only [decide_eq_true_eq] at h
    exact ⟨s, doc, rfl, by omega⟩
  all_goals
    rw [he] at h
    exact absurd rfl h

theorem runExtractor_urls {fetch : String → FetchOutcome} :
    ∀ {links : List String} {r : ArticleRecord},
      r ∈ (runExtractor fetch links).1 → r.url ∈ links := by
  intro links
  induction links with
  | nil =>
    intro r h
    simp [runExtractor] at h
  | cons hd tl ih =>
    intro r h
    by_cases hf : fetchFails (fetch hd) = true
    · rw [runExtractor_cons_fail hf] at h
      exact List.mem_cons_of_mem hd (ih h)
    · obtain ⟨s, doc, he, hs⟩ := fetch_ok_of_not_fails hf
      rw [runExtractor_cons_ok he hs] at h
      rcases List.mem_cons.1 h with h1 | h1
      · rw [h1]
        exact List.mem_cons_self hd tl
      · exact List.mem_cons_of_mem hd (ih h1)

theorem runExtractor_skip {fetch : String → FetchOutcome} {link : String}
    (hfail : fetchFails (fetch link) = true) :
    ∀ (pre post : List String),
      (runExtractor fetch (pre ++ link :: post)).1
        = (runExtractor fetch (pre ++ post)).1 := by
  intro pre
  induction pre with
  | nil =>
    intro post
    rw [List.nil_append, List.nil_append, runExtractor_cons_fail hfail]
  | cons hd tl ih =>
    intro post
    rw [List.cons_append, List.cons_append]
    by_cases hf : fetchFails (fetch hd) = true
    · rw [runExtractor_cons_fail hf, runExtractor_cons_fail hf, ih]
    · obtain ⟨s, doc, he, hs⟩ := fetch_ok_of_not_fails hf
      rw [runExtractor_cons_ok he hs, runExtractor_cons_ok he hs]
      show extractRecord hd doc :: (runExtractor fetch (tl ++ link :: post)).1
        = extractRecord hd doc :: (runExtractor fetch (tl ++ post)).1
      rw [ih]

/-- Claim C5: when the fetch of a link fails (HTTP status at least 400, a
timeout, a request error, or an attribute/type error), the record list is
exactly what it would have been without that link, and — when the link does
not also occur among the other processed links — no record carries its URL;
processing simply continues over the remaining links. -/
theorem c5_failed_fetch_no_record (fetch : String → FetchOutcome)
    (pre post : List String) (link : String)
    (hfail : fetchFails (fetch link) = true) :
    (runExtractor fetch (pre ++ link :: post)).1
      = (runExtractor fetch (pre ++ post)).1 ∧
    (link ∉ pre → link ∉ post →
      ∀ r ∈ (runExtractor fetch (pre ++ link :: post)).1, r.url ≠ link) := by
  refine ⟨runExtractor_skip hfail pre post, ?_⟩
  intro h1 h2 r hr heq
  rw [runExtractor_skip hfail pre post] at hr
  have hmem := runExtractor_urls hr
  rw [heq] at hmem
  rcases List.mem_append.1 hmem with h | h
  · exact h1 h
  · exact h2 h

/-- A fetch function under which one URL yields HTTP 404 and every other
URL succeeds with status 200 on a document with no matching elements. -/
def mixedFetch : String → FetchOutcome := fun u =>
  if u = "https://www.euronews.com/2024/05/06/bad" then FetchOutcome.ok 404 emptyDoc
  else FetchOutcome.ok 200 emptyDoc

/-- Claim C5 witness: with a concrete 404 on the first of two links, the
result table equals the one-link table and the surviving record's URL is
not the failed URL. -/
theorem c5_witness :
    (runExtractor mixedFetch
        ["https://www.euronews.com/2024/05/06/bad",
         "https://www.euronews.com/2024/05/07/good"]).1
      = (runExtractor mixedFetch ["https://www.euronews.com/2024/05/07/good"]).1 ∧
    (extractRecord "https://www.euronews.com/2024/05/07/good" emptyDoc).url
      ≠ "https://www.euronews.com/2024/05/06/bad" := by
  have h := c5_failed_fetch_no_record mixedFetch []
    ["https://www.euronews.com/2024/05/07/good"]
    "https://www.euronews.com/2024/05/06/bad" (by decide)
  have hrun : (runExtractor mixedFetch
      ([] ++ ["https://www.euronews.com/2024/05/06/bad",
              "https://www.euronews.com/2024/05/07/good"])).1
      = [extractRecord "https://www.euronews.com/2024/05/07/good" emptyDoc] := rfl
  refine ⟨h.1, h.2 (by decide) (by decide) _ ?_⟩
  rw [hrun]
  exact List.mem_singleton.2 rfl

/-! ### C8 -/

/-- Claim C8: the number of records the article loop produces never exceeds
the number of unique links handed to it, and is strictly smaller as soon as
at least one of those links fails its fetch. -/
theorem c8_records_le_links (fetch : String → FetchOutcome) (links : List String) :
    (runExtractor fetch links).1.length ≤ links.length ∧
    ((∃ l ∈ links, fetchFails (fetch l) = true) →
      (runExtractor fetch links).1.length < links.length) := by
  induction links with
  | nil =>
    refine ⟨Nat.le_refl _, ?_⟩
    rintro ⟨l, hl, _⟩
    cases hl
  | cons hd tl ih =>
    by_cases hf : fetchFails (fetch hd) = true
    · rw [runExtractor_cons_fail hf]
      refine ⟨Nat.le_succ_of_le ih.1, ?_⟩
      intro _
      exact Nat.lt_succ_of_le ih.1
    · obtain ⟨s, doc, he, hs⟩ := fetch_ok_of_not_fails hf
      rw [runExtractor_cons_ok he hs]
      constructor
      · show (runExtractor fetch tl).1.length + 1 ≤ tl.length + 1
        exact Nat.succ_le_succ ih.1
      · rintro ⟨l, hl, hfl⟩
        rcases List.mem_cons.1 hl with h1 | h1
        · rw [h1] at hfl
          exact absurd hfl hf
        · show (runExtractor fetch tl).1.length + 1 < tl.length + 1
          exact Nat.succ_lt_succ (ih.2 ⟨l, h1, hfl⟩)

/-- Claim C8 witness: two links, one failing fetch, strictly fewer records
than links. -/
theorem c8_witness :
    (runExtractor mixedFetch
        ["https://www.euronews.com/2024/05/06/bad",
         "https://www.euronews.com/2024/05/07/good"]).1.length < 2 :=
  (c8_records_le_links mixedFetch
      ["https://www.euronews.com/2024/05/06/bad",
       "https://www.euronews.com/2024/05/07/good"]).2
    ⟨"https://www.euronews.com/2024/05/06/bad", by decide, by decide⟩

/-! ### C9 -/

/-- The effect trace the code actually produces: the politeness sleep
follows only successful attempts, because `time.sleep` sits inside the
`try` block after the append and every handler does `continue`. -/
def expectedEffects (fetch : String → FetchOutcome) : List String → List Effect
  | [] => []
  | l :: rest =>
    if fetchFails (fetch l) then Effect.fetchArticle l :: expectedEffects fetch rest
    else Effect.fetchArticle l :: Effect.sleepArticle :: expectedEffects fetch rest

theorem expectedEffects_cons (fetch : String → FetchOutcome) (l : String)
    (rest : List String) :
    expectedEffects fetch (l :: rest) =
      if fetchFails (fetch l) then Effect.fetchArticle l :: expectedEffects fetch rest
      else Effect.fetchArticle l :: Effect.sleepArticle :: expectedEffects fetch rest := rfl

/-- Claim C9 (amended): the inter-article delay is applied after each
successful attempt only; a failed attempt proceeds to the next URL with no
intervening sleep, so the run's effect trace is exactly `expectedEffects`. -/
theorem c9_sleep_only_after_success (fetch : String → FetchOutcome)
    (links : List String) :
    (runExtractor fetch links).2 = expectedEffects fetch links := by
  induction links with
  | nil => rfl
  | cons hd tl ih =>
    rw [expectedEffects_cons]
    by_cases hf : fetchFails (fetch hd) = true
    · rw [runExtractor_cons_fail hf, if_pos hf]
      show Effect.fetchArticle hd :: (runExtractor fetch tl).2
        = Effect.fetchArticle hd :: expectedEffects fetch tl
      rw [ih]
    · obtain ⟨s, doc, he, hs⟩ := fetch_ok_of_not_fails hf
      rw [runExtractor_cons_ok he hs, if_neg hf]
      show Effect.fetchArticle hd :: Effect.sleepArticle :: (runExtractor fetch tl).2
        = Effect.fetchArticle hd :: Effect.sleepArticle :: expectedEffects fetch tl
      rw [ih]

/-- In a trace over the two-effect alphabet, is every article fetch
separated from the next one by a sleep? -/
def sleepsBetweenFetches : List Effect → Bool
  | Effect.fetchArticle _ :: Effect.fetchArticle _ :: _ => false
  | _ :: rest => sleepsBetweenFetches rest
  | [] => true

/-- Claim C9 exactly as stated: every article fetch, successful or not, is
followed by the politeness sleep before the next fetch begins. -/
def C9Claim (fetch : String → FetchOutcome) (links : List String) : Prop :=
  sleepsBetweenFetches (runExtractor fetch links).2 = true

/-- Claim C9 counterexample: when the first of two links fails, its fetch is
immediately followed by the next fetch with no sleep in between (the sleep
sits inside the `try`, and the handlers `continue`). -/
theorem c9_counterexample :
    ¬ C9Claim mixedFetch
        ["https://www.euronews.com/2024/05/06/bad",
         "https://www.euronews.com/2024/05/07/good"] := by
  intro h
  unfold C9Claim at h
  have hfalse : sleepsBetweenFetches (runExtractor mixedFetch
      ["https://www.euronews.com/2024/05/06/bad",
       "https://www.euronews.com/2024/05/07/good"]).2 = false := rfl
  rw [hfalse] at h
  exact Bool.false_ne_true h

/-! ### C6 -/

/-- Claim C6: in a document with no element of the byline-name class, whose
first `meta name="author"` element carries `content="Jane Doe"`, the author
cascade yields exactly "Jane Doe" (step 2 wins). -/
theorem c6_meta_author_cascade (doc m : Node)
    (h1 : findN doc isBylineName = none)
    (h2 : findN doc isMetaAuthor = some m)
    (h3 : attrVal m "content" = some "Jane Doe") :
    extractAuthor doc = "Jane Doe" := by
  unfold extractAuthor
  rw [h1]
  dsimp only
  rw [h2]
  dsimp only
  rw [h3]

def c6MetaNode : Node :=
  Node.elem "meta" [] [("name", "author"), ("content", "Jane Doe")] []

def c6Doc : Node := Node.elem "html" [] [] [c6MetaNode]

/-- Claim C6 witness: a concrete document holding only the author meta tag. -/
theorem c6_witness : extractAuthor c6Doc = "Jane Doe" := by
  have he : Node.descElems c6Doc = [c6MetaNode] := by
    simp [c6Doc, c6MetaNode, Node.descElems, elemsList]
  refine c6_meta_author_cascade c6Doc c6MetaNode ?_ ?_ rfl
  · unfold findN findAllN
    rw [he]
    rfl
  · unfold findN findAllN
    rw [he]
    rfl

/-! ### C7 -/

/-- Claim C7: a document with no `div.c-article-content > p` match and no
`div.c-article__body`, whose first `article` element has exactly the
paragraphs "A." and "B.", extracts content "A." joined to "B." by a single
newline. -/
theorem c7_generic_article_content (doc art p1 p2 : Node)
    (h0 : selectArticleContentPs doc = [])
    (h1 : findN doc isArticleBodyDiv = none)
    (h2 : findN doc (tagIs "article") = some art)
    (h3 : findAllN art (tagIs "p") = [p1, p2])
    (h4 : getTextStrip p1 = "A.")
    (h5 : getTextStrip p2 = "B.") :
    extractContent doc = "A.\nB." := by
  unfold extractContent
  rw [h0]
  rw [if_neg (by simp)]
  rw [h1]
  dsimp only
  rw [h2]
  dsimp only
  rw [h3]
  have hc : (!([p1, p2] : List Node).isEmpty) = true := rfl
  rw [if_pos hc]
  unfold joinParas
  rw [List.map_cons, List.map_cons, List.map_nil, h4, h5]
  rfl

def c7Para1 : Node := Node.elem "p" [] [] [Node.text "A."]

def c7Para2 : Node := Node.elem "p" [] [] [Node.text "B."]

def c7Art : Node := Node.elem "article" [] [] [c7Para1, c7Para2]

def c7Doc : Node := Node.elem "html" [] [] [c7Art]

/-- Claim C7 witness: a concrete document with only a generic article
holding the two paragraphs. -/
theorem c7_witness : extractContent c7Doc = "A.\nB." := by
  have he : Node.descElems c7Doc = [c7Art, c7Para1, c7Para2] := by
    simp [c7Doc, c7Art, c7Para1, c7Para2, Node.descElems, elemsList]
  have he2 : Node.descElems c7Art = [c7Para1, c7Para2] := by
    simp [c7Art, c7Para1, c7Para2, Node.descElems, elemsList]
  refine c7_generic_article_content c7Doc c7Art c7Para1 c7Para2 ?_ ?_ ?_ ?_ ?_ ?_
  · simp [selectArticleContentPs, Node.childrenOf, c7Doc, c7Art, c7Para1, c7Para2,
      selectCAC, tagIs]
  · unfold findN findAllN
    rw [he]
    rfl
  · unfold findN findAllN
    rw [he]
    rfl
  · unfold findAllN
    rw [he2]
    rfl
  · have ht : textList [c7Para1] = ["A."] := by
      simp [c7Para1, textList]
    unfold getTextStrip
    rw [ht]
    rfl
  · have ht : textList [c7Para2] = ["B."] := by
      simp [c7Para2, textList]
    unfold getTextStrip
    rw [ht]
    rfl

/-! ### C10 -/

/-- Elements found inside an element of a forest are elements of the
forest: the subtree relation is transitive through `elemsList`. -/
theorem descElems_subset_elemsList :
    ∀ {l : List Node} {d : Node}, d ∈ elemsList l →
      ∀ {x : Node}, x ∈ d.descElems → x ∈ elemsList l := by
  intro l
  induction l using elemsList.induct with
  | case1 =>
    intro d hd
    simp only [elemsList] at hd
    cases hd
  | case2 s rest ih =>
    intro d hd x hx
    simp only [elemsList] at hd ⊢
    exact ih hd hx
  | case3 t c a ch rest ih1 ih2 =>
    intro d hd x hx
    simp only [elemsList] at hd ⊢
    rcases List.mem_cons.1 hd with h1 | h1
    · subst h1
      exact List.mem_cons_of_mem _ (List.mem_append_left _ hx)
    · rcases List.mem_append.1 h1 with h2 | h2
      · exact List.mem_cons_of_mem _ (List.mem_append_left _ (ih1 h2 hx))
      · exact List.mem_cons_of_mem _ (List.mem_append_right _ (ih2 h2 hx))

theorem mem_descElems_trans {n d x : Node} (hd : d ∈ n.descElems)
    (hx : x ∈ d.descElems) : x ∈ n.descElems := by
  cases n with
  | text s => cases hd
  | elem t c a ch => exact descElems_subset_elemsList hd hx

theorem findN_eq_none_iff {n : Node} {p : Node → Bool} :
    findN n p = none ↔ ∀ x ∈ n.descElems, p x = false := by
  unfold findN findAllN
  rw [List.head?_eq_none_iff, List.filter_eq_nil_iff]
  constructor
  · intro h x hx
    exact Bool.eq_false_iff.mpr (h x hx)
  · intro h x hx
    exact Bool.eq_false_iff.mp (h x hx)

theorem findN_eq_some_mem {n : Node} {p : Node → Bool} {d : Node}
    (h : findN n p = some d) : d ∈ n.descElems := by
  unfold findN findAllN at h
  cases hl : (n.descElems).filter p with
  | nil => rw [hl] at h; cases h
  | cons a t =>
    rw [hl] at h
    have ha : a = d := by
      simpa using h
    have hmem : a ∈ (n.descElems).filter p := by
      rw [hl]
      exact List.mem_cons_self a t
    rw [← ha]
    exact (List.mem_filter.1 hmem).1

/-- The three-step author cascade described by the claim: identical to
`extractAuthor` except that step (3) — the search for a byline-name span
inside the byline container — is omitted. -/
def bylineAuthorNoSpan (doc : Node) : String :=
  match findN doc isBylineDiv with
  | none => "N/A"
  | some byline_div =>
    match findN byline_div isHoverUnderlineA with
    | some a => getTextStrip a
    | none => "N/A"

/-- The author cascade with step (3) removed, following the claim's words. -/
def extractAuthorNoStep3 (doc : Node) : String :=
  match findN doc isBylineName with
  | some t => getTextStrip t
  | none =>
    match findN doc isMetaAuthor with
    | some m =>
      match attrVal m "content" with
      | some v => v
      | none => bylineAuthorNoSpan doc
    | none => bylineAuthorNoSpan doc

/-- Claim C10: the four-step author cascade equals the three-step cascade
without step (3): when step (1) finds no element of the byline-name class
anywhere in the document, no span with that class can exist inside the
byline container either, so step (3) never fires. -/
theorem c10_author_cascade_equiv (doc : Node) :
    extractAuthor doc = extractAuthorNoStep3 doc := by
  unfold extractAuthor extractAuthorNoStep3
  cases h1 : findN doc isBylineName with
  | some t => rfl
  | none =>
    have hnone : ∀ x ∈ doc.descElems, isBylineName x = false :=
      findN_eq_none_iff.1 h1
    have hby : bylineAuthor doc = bylineAuthorNoSpan doc := by
      unfold bylineAuthor bylineAuthorNoSpan
      cases h2 : findN doc isBylineDiv with
      | none => rfl
      | some d =>
        dsimp only
        have hd : d ∈ doc.descElems := findN_eq_some_mem h2
        have hspan : findN d isBylineNameSpan = none := by
          rw [findN_eq_none_iff]
          intro x hx
          have hxdoc : x ∈ doc.descElems := mem_descElems_trans hd hx
          have hxfalse := hnone x hxdoc
          unfold isBylineNameSpan
          rw [hxfalse, Bool.and_false]
        rw [hspan]
    dsimp only
    cases h2 : findN doc isMetaAuthor with
    | some m =>
      dsimp only
      cases attrVal m "content" with
      | some v => rfl
      | none => exact hby
    | none => exact hby

end Euro
